import Mathlib

/-!
# Verification of the clipboard-sync peer synchronization engine

A shallow embedding, in Lean 4, of the Go sources of the `clipboard-sync`
repository, together with proofs of the behavioural claims made by its
specification.  Go byte slices are modelled as `List Nat` (each element a
byte value `< 256`), Go maps as association lists, fallible functions as
`Except`, and the stateful components as explicit state-passing functions.

Embedded components:
* `internal/clipboard/manager.go` — the echo-cancellation guard (`Manager`);
* `internal/crypto/crypto.go` — AES-256-GCM seal/open, with the AES block
  cipher and GCM mode written out concretely (the Go code calls the standard
  library's `crypto/aes` and `crypto/cipher`, which we embed following the
  AES and GCM specifications they implement);
* `internal/signaling/signaling.go` — the signaling `Message` record and its
  JSON (un)marshalling, restricted to the flat textual wire format the
  protocol uses;
* `internal/wsserver/hub.go` — room registration, deregistration and the
  `broadcast` relay, with per-connection write failures supplied by an
  oracle `fails : Conn → Bool`;
* `internal/client/client.go` — the peer/data-channel tables of the client
  `App` and `closePeerConnection`.
-/

namespace ClipSync

deriving instance DecidableEq for Except


/-! ## Bytes

Go `[]byte` payloads are modelled as lists of byte values.  Go's
`string(content)` conversion is injective on byte slices and string equality
is byte-wise equality, so comparing converted strings is list equality here. -/

abbrev Bytes := List Nat

/-! ## ClipboardGuard — `internal/clipboard/manager.go`

`Manager` holds the single piece of guard state, `lastContent` (the Go field
of the same name; the mutex only serializes access and has no sequential
effect).  `WriteSafely` and `ShouldIgnore` are modelled as state-passing
functions; the actual OS clipboard write performed by `WriteSafely` is
external and does not touch guard state. -/

structure Manager where
  lastContent : Bytes
deriving DecidableEq, Repr

/-- `NewManager` returns a manager whose `lastContent` is the zero value
(the empty string, i.e. the empty byte sequence). -/
def NewManager : Manager := { lastContent := [] }

/-- `WriteSafely` records `content` as the last-known content (and then
performs the OS write, which is outside the model). -/
def Manager.WriteSafely (m : Manager) (content : Bytes) : Manager :=
  { m with lastContent := content }

/-- `ShouldIgnore` compares `content` with `lastContent`: on a match it
returns `true` and leaves the state untouched; otherwise it stores `content`
as the new `lastContent` and returns `false`.  Returns the Go function's
boolean together with the updated state. -/
def Manager.ShouldIgnore (m : Manager) (content : Bytes) : Bool × Manager :=
  if content = m.lastContent then
    (true, m)
  else
    (false, { m with lastContent := content })

/-! ## SignalingCodec — `internal/signaling/signaling.go`

`Message` is the signaling record; `Unmarshal` is `json.Unmarshal` into it.
The wire format is a flat textual record with four string fields, so the
embedded decoder parses exactly that shape: a single JSON object whose
members are string-valued (string escapes other than none are outside the
modelled subset); any other input is a `FormatError`, modelled as
`Except.error ()`.  Missing fields are left at the zero value (the empty
string); a duplicated member keeps the last value, as `encoding/json`
does. -/

structure Message where
  type : String
  fromPeer : String
  toPeer : String
  payload : String
deriving DecidableEq, Repr

/-- Drop leading JSON whitespace. -/
def skipWs : List Char → List Char
  | [] => []
  | c :: rest =>
    if c = ' ' ∨ c = '\t' ∨ c = '\n' ∨ c = '\r' then skipWs rest else c :: rest

/-- Parse the body of a JSON string literal (after the opening quote) up to
the closing quote; fails at end of input. -/
def parseStrBody : List Char → Except Unit (List Char × List Char)
  | [] => Except.error ()
  | c :: rest =>
    if c = '"' then Except.ok ([], rest)
    else
      match parseStrBody rest with
      | Except.ok (s, r) => Except.ok (c :: s, r)
      | Except.error e => Except.error e

/-- Parse one `"key" : "value"` member of a JSON object. -/
def parsePair (input : List Char) : Except Unit ((String × String) × List Char) :=
  match skipWs input with
  | '"' :: r0 =>
    match parseStrBody r0 with
    | Except.ok (k, r1) =>
      match skipWs r1 with
      | ':' :: r2 =>
        match skipWs r2 with
        | '"' :: r3 =>
          match parseStrBody r3 with
          | Except.ok (v, r4) => Except.ok ((String.mk k, String.mk v), r4)
          | Except.error e => Except.error e
        | _ => Except.error ()
      | _ => Except.error ()
    | Except.error e => Except.error e
  | _ => Except.error ()

/-- Parse the members of a JSON object after the opening brace, up to and
including the closing brace.  `fuel` bounds the number of members. -/
def parseMembers : Nat → List Char → Except Unit (List (String × String) × List Char)
  | 0, _ => Except.error ()
  | fuel + 1, input =>
    match parsePair input with
    | Except.error e => Except.error e
    | Except.ok (kv, rest) =>
      match skipWs rest with
      | ',' :: r =>
        match parseMembers fuel r with
        | Except.ok (kvs, r2) => Except.ok (kv :: kvs, r2)
        | Except.error e => Except.error e
      | '\x7d' :: r => Except.ok ([kv], r)
      | _ => Except.error ()

/-- Parse a whole input as one flat JSON object of string members, with
nothing but whitespace around it. -/
def parseFlatObject (input : List Char) : Except Unit (List (String × String)) :=
  match skipWs input with
  | '\x7b' :: rest =>
    match skipWs rest with
    | '\x7d' :: r2 => if skipWs r2 = [] then Except.ok [] else Except.error ()
    | _ =>
      match parseMembers (input.length + 1) rest with
      | Except.ok (kvs, r2) => if skipWs r2 = [] then Except.ok kvs else Except.error ()
      | Except.error e => Except.error e
  | _ => Except.error ()

/-- Go map read `m[k]`: the value stored under the first (unique) entry for
`k`, or `none`. -/
def mapGet : List (String × α) → String → Option α
  | [], _ => none
  | (a, b) :: t, k => if a = k then some b else mapGet t k

/-- The value decoded for a field: the last member with that key, or the
zero value `""` when the key is absent. -/
def fieldValue (kvs : List (String × String)) (key : String) : String :=
  (mapGet kvs.reverse key).getD ("")

/-- `Unmarshal` deserializes bytes into a `Message`; malformed input yields
a `FormatError` (`Except.error ()`), never a crash. -/
def Unmarshal (data : List Char) : Except Unit Message :=
  match parseFlatObject data with
  | Except.error e => Except.error e
  | Except.ok kvs =>
    Except.ok
      { type := fieldValue kvs ("type")
        fromPeer := fieldValue kvs ("from")
        toPeer := fieldValue kvs ("to")
        payload := fieldValue kvs ("payload") }

/-! ## RoomHub — `internal/wsserver/hub.go`

A `*websocket.Conn` is a handle compared by identity, modelled as a `Nat`.
A room is the Go map `map[string]*websocket.Conn`, and the hub table the Go
map `map[string]map[string]*websocket.Conn`; both are modelled as
association lists with the usual map operations (`mapSet` overwrites, keys
are unique in every state the hub produces).  Whether a
`WriteMessage` call fails is decided by an oracle `fails : Conn → Bool`;
`broadcast` returns the writes that succeeded, the connections it closed,
and the room membership after the call. -/

abbrev Conn := Nat

abbrev Room := List (String × Conn)

abbrev RoomTable := List (String × Room)

/-- Go map assignment `m[k] = v`: overwrite the entry for `k` if present,
else add it. -/
def mapSet : List (String × α) → String → α → List (String × α)
  | [], k, v => [(k, v)]
  | (a, b) :: t, k, v => if a = k then (k, v) :: t else (a, b) :: mapSet t k v

/-- Go map deletion `delete(m, k)`. -/
def mapDel : List (String × α) → String → List (String × α)
  | [], _ => []
  | (a, b) :: t, k => if a = k then t else (a, b) :: mapDel t k

/-- The result of one `broadcast` call: the `WriteMessage` calls that
succeeded (connection, bytes written), the connections closed after a write
failure, and the room's membership on return. -/
structure BroadcastResult where
  delivered : List (Conn × List Char)
  closed : List Conn
  room : Room
deriving DecidableEq, Repr

/-- The fan-out loop of `broadcast`: write to every connection in the room
except the sender; a failed write closes that connection and the loop
continues.  Returns (successful writes, closed connections). -/
def fanLoop (sender : Conn) (fails : Conn → Bool) (msg : List Char) :
    Room → List (Conn × List Char) × List Conn
  | [] => ([], [])
  | (_, c) :: rest =>
    let r := fanLoop sender fails msg rest
    if c = sender then r
    else if fails c then (r.1, c :: r.2)
    else ((c, msg) :: r.1, r.2)

/-- `broadcast` (hub.go lines 92-122), for the room the sender is in: parse
the raw message; if parsing succeeds and `ToPeer` is non-empty, write only
to that peer's connection if present (closing and deleting it on a write
failure) and return; otherwise fan out to every connection except the
sender, closing (but not deleting) any connection whose write fails. -/
def broadcast (room : Room) (sender : Conn) (fails : Conn → Bool)
    (msg : List Char) : BroadcastResult :=
  match Unmarshal msg with
  | Except.ok m =>
    if m.toPeer ≠ ("") then
      match mapGet room m.toPeer with
      | some target =>
        if fails target then
          { delivered := [], closed := [target], room := mapDel room m.toPeer }
        else
          { delivered := [(target, msg)], closed := [], room := room }
      | none => { delivered := [], closed := [], room := room }
    else
      let p := fanLoop sender fails msg room
      { delivered := p.1, closed := p.2, room := room }
  | Except.error _ =>
    let p := fanLoop sender fails msg room
    { delivered := p.1, closed := p.2, room := room }

/-- The registration step of `HandleConnections` (hub.go lines 58-63): the
room map is created lazily if absent, then the connection is stored under
`peerID`, overwriting any earlier handle. -/
def register (t : RoomTable) (roomID peerID : String) (ws : Conn) : RoomTable :=
  mapSet t roomID (mapSet ((mapGet t roomID).getD []) peerID ws)

/-- The cleanup step run when a connection's receive loop ends (hub.go
lines 67-80): if `peerID` is still registered in the room, delete it, and
delete the room itself when it becomes empty. -/
def deregister (t : RoomTable) (roomID peerID : String) : RoomTable :=
  match mapGet t roomID with
  | none => t
  | some room =>
    match mapGet room peerID with
    | none => t
    | some _ =>
      let room2 := mapDel room peerID
      if room2 = [] then mapDel t roomID else mapSet t roomID room2

/-! ## SyncCoordinator tables — `internal/client/client.go`

The client `App` keeps one peer connection and one data channel per remote
peer, in the Go maps `peers` and `dataChans`; the handles themselves are
external objects, modelled as `Nat` identities.  `closePeerConnection`
closes and deletes whichever of the two entries exist for the given remote
peer. -/

structure AppTables where
  peers : List (String × Nat)
  dataChans : List (String × Nat)
deriving DecidableEq, Repr

/-- `closePeerConnection` (client.go): if a data channel exists for
`remotePeerID`, close it and delete its entry; if a peer connection exists,
close it and delete its entry.  The `Close()` calls act on the external
handles only; the table state is what is modelled. -/
def closePeerConnection (a : AppTables) (remotePeerID : String) : AppTables :=
  let dcs :=
    match mapGet a.dataChans remotePeerID with
    | some _ => mapDel a.dataChans remotePeerID
    | none => a.dataChans
  let pcs :=
    match mapGet a.peers remotePeerID with
    | some _ => mapDel a.peers remotePeerID
    | none => a.peers
  { peers := pcs, dataChans := dcs }

/-! ## CryptoBox — `internal/crypto/crypto.go`

`Encrypt` and `Decrypt` wrap AES-256-GCM from Go's standard library
(`crypto/aes`, `crypto/cipher`), which is embedded here concretely,
following FIPS-197 (the AES block cipher, 256-bit keys) and NIST SP
800-38D (GCM with 96-bit nonces, empty additional data, 16-byte tags) that
those packages implement.  Bytes are `Nat` values `< 256`, 128-bit blocks
are big-endian `Nat` values where convenient.  The random nonce drawn by
`Encrypt` is passed as an explicit 12-byte argument.  As `DeriveKey` always
produces 32-byte keys, only `aes.NewCipher`'s 32-byte (AES-256) case is
embedded; any other key length is mapped to the key-size error. -/

/-- The AES S-box, packed little-endian into one constant: byte `i` of
`sboxTable` is `S(i)`. -/
def sboxTable : Nat :=
  2869618975290639062594974519597816386035077209210385677284518162336985023502962151465775969507961862820568736543004676439868535775640188584098917533413284844376797297285941524888791401501466624530423689326528054213168201056672989590893583853414110162539122864583953358348775951166211353578440977400428507475679327181038682772945817200201960445064847785221508011893952350688324234443749897213621340677040612747745615276448919507935121141307752692835344166708617454322778699219895865633266409040561742768581056182730443599545881830075941537620590442514083341749674612746994879540562701631131184186066652929592955206755

/-- S-box lookup. -/
def sbox (b : Nat) : Nat := (sboxTable >>> (8 * (b % 256))) % 256

/-- Multiplication by `x` in GF(2^8) modulo `x^8 + x^4 + x^3 + x + 1`. -/
def xtime (b : Nat) : Nat := if b < 128 then 2 * b else (2 * b) ^^^ 283

/-- Multiplication by `3` in GF(2^8). -/
def gf3 (b : Nat) : Nat := xtime b ^^^ b

/-- Byte-wise xor of two equal-length byte lists. -/
def listXor (a b : List Nat) : List Nat := List.zipWith (fun x y => x ^^^ y) a b

/-- `RotWord` of the key schedule. -/
def rotWord : List Nat → List Nat
  | [] => []
  | a :: rest => rest ++ [a]

/-- `SubWord` of the key schedule. -/
def subWord (w : List Nat) : List Nat := w.map sbox

/-- The round-constant byte `rc_(n+1)`: iterated `xtime` from `1`. -/
def rcPow : Nat → Nat
  | 0 => 1
  | n + 1 => xtime (rcPow n)

/-- One step of the AES-256 key expansion: append word `i = ws.length`
(FIPS-197 §5.2 with `Nk = 8`). -/
def nextWord (ws : List (List Nat)) : List (List Nat) :=
  let i := ws.length
  let prev := ws.getD (i - 1) []
  let tmp :=
    if i % 8 == 0 then
      listXor (subWord (rotWord prev)) [rcPow (i / 8 - 1), 0, 0, 0]
    else if i % 8 == 4 then
      subWord prev
    else
      prev
  ws ++ [listXor (ws.getD (i - 8) []) tmp]

/-- Iterate `nextWord`. -/
def expandFrom (ws : List (List Nat)) : Nat → List (List Nat)
  | 0 => ws
  | n + 1 => expandFrom (nextWord ws) n

/-- The 60-word AES-256 key schedule: words 0-7 are the key, 52 more are
generated. -/
def keySchedule (key : List Nat) : List (List Nat) :=
  expandFrom ((List.range 8).map (fun i => (key.drop (4 * i)).take 4)) 52

/-- Round key `r` as 16 bytes (words `4r .. 4r+3`). -/
def roundKey (ws : List (List Nat)) (r : Nat) : List Nat :=
  ws.getD (4 * r) [] ++ ws.getD (4 * r + 1) [] ++ ws.getD (4 * r + 2) []
    ++ ws.getD (4 * r + 3) []

/-- `SubBytes`. -/
def subBytes (s : List Nat) : List Nat := s.map sbox

/-- The flat-index permutation of `ShiftRows` (state bytes in FIPS-197
column-major order: flat index `j` is row `j % 4`, column `j / 4`). -/
def shiftRowsIdx (j : Nat) : Nat := 4 * ((j / 4 + j % 4) % 4) + j % 4

/-- `ShiftRows` on a 16-byte state. -/
def shiftRows (s : List Nat) : List Nat :=
  (List.range 16).map (fun j => s.getD (shiftRowsIdx j) 0)

/-- `MixColumns` on a 16-byte state. -/
def mixColumns (s : List Nat) : List Nat :=
  (List.range 16).map (fun j =>
    let b := fun r => s.getD (4 * (j / 4) + r) 0
    match j % 4 with
    | 0 => xtime (b 0) ^^^ gf3 (b 1) ^^^ b 2 ^^^ b 3
    | 1 => b 0 ^^^ xtime (b 1) ^^^ gf3 (b 2) ^^^ b 3
    | 2 => b 0 ^^^ b 1 ^^^ xtime (b 2) ^^^ gf3 (b 3)
    | _ => gf3 (b 0) ^^^ b 1 ^^^ b 2 ^^^ xtime (b 3))

/-- `AddRoundKey` on a 16-byte state. -/
def addRoundKey (rk s : List Nat) : List Nat :=
  (List.range 16).map (fun j => s.getD j 0 ^^^ rk.getD j 0)

/-- One main AES round. -/
def aesRound (rk s : List Nat) : List Nat :=
  addRoundKey rk (mixColumns (shiftRows (subBytes s)))

/-- The final AES round (no `MixColumns`). -/
def aesFinalRound (rk s : List Nat) : List Nat :=
  addRoundKey rk (shiftRows (subBytes s))

/-- AES-256 block encryption (14 rounds). -/
def encryptBlock (key block : List Nat) : List Nat :=
  let ws := keySchedule key
  let s0 := addRoundKey (roundKey ws 0) block
  aesFinalRound (roundKey ws 14)
    ((List.range 13).foldl (fun s r => aesRound (roundKey ws (r + 1)) s) s0)

/-- Big-endian bytes-to-number. -/
def beBytesToNat (l : List Nat) : Nat := l.foldl (fun acc b => 256 * acc + b) 0

/-- Big-endian number-to-bytes, `n` bytes. -/
def natToBeBytes (n x : Nat) : List Nat :=
  (List.range n).map (fun i => (x >>> (8 * (n - 1 - i))) % 256)

/-- GCM's `inc32`: add `i` into the low 32 bits of a 128-bit block value. -/
def inc32 (x i : Nat) : Nat :=
  ((x >>> 32) <<< 32) ||| ((x % 2 ^ 32 + i) % 2 ^ 32)

/-- Multiplication in GF(2^128) as specified by NIST SP 800-38D (bit 0 of a
block is the most significant bit of its big-endian value; the reduction
constant is `R = 0xe1 <<< 120`). -/
def gcmMul (x y : Nat) : Nat :=
  ((List.range 128).foldl
    (fun zv i =>
      let z := if (x >>> (127 - i)) % 2 == 1 then zv.1 ^^^ zv.2 else zv.1
      let v := if zv.2 % 2 == 1 then (zv.2 >>> 1) ^^^ (225 <<< 120)
               else zv.2 >>> 1
      (z, v))
    (0, y)).1

/-- Split a byte string into zero-padded 16-byte blocks, as big-endian
block values; the fuel argument (instantiated with the length, an upper
bound on the block count) keeps the recursion structural. -/
def toBlocksF : Nat → List Nat → List Nat
  | 0, _ => []
  | _, [] => []
  | fuel + 1, a :: rest =>
    beBytesToNat ((a :: rest).take 16
        ++ List.replicate (16 - ((a :: rest).take 16).length) 0)
      :: toBlocksF fuel ((a :: rest).drop 16)

/-- Split a byte string into zero-padded 16-byte blocks, as big-endian
block values. -/
def toBlocks (l : List Nat) : List Nat := toBlocksF l.length l

/-- `GHASH_H` over empty additional data and ciphertext `c`, including the
final 64-bit-lengths block. -/
def ghash (h : Nat) (c : List Nat) : Nat :=
  gcmMul (((toBlocks c).foldl (fun y b => gcmMul (y ^^^ b) h) 0)
    ^^^ (8 * c.length) % 2 ^ 64) h

/-- The CTR keystream: bytes of blocks `E(K, inc32(J0, 1)) ..
E(K, inc32(J0, b))`. -/
def ksBlocks (key : List Nat) (j0 : Nat) : Nat → List Nat
  | 0 => []
  | b + 1 => ksBlocks key j0 b ++ encryptBlock key (natToBeBytes 16 (inc32 j0 (b + 1)))

/-- GCM's CTR transform: xor the message with the keystream (enough blocks
to cover the message, truncated to its length). -/
def ctrCrypt (key : List Nat) (j0 : Nat) (msg : List Nat) : List Nat :=
  listXor msg ((ksBlocks key j0 ((msg.length + 15) / 16)).take msg.length)

/-- The 16-byte GCM authentication tag over ciphertext `c`:
`E(K, J0) xor GHASH_H(c)` with `H = E(K, 0^128)`. -/
def gcmTag (key : List Nat) (j0 : Nat) (c : List Nat) : List Nat :=
  natToBeBytes 16
    (beBytesToNat (encryptBlock key (natToBeBytes 16 j0))
      ^^^ ghash (beBytesToNat (encryptBlock key (List.replicate 16 0))) c)

/-- `gcm.Seal(nonce, nonce, plaintext, nil)`: the nonce, the CTR-encrypted
plaintext, and the tag, concatenated. -/
def gcmSeal (key nonce plaintext : List Nat) : List Nat :=
  let j0 := beBytesToNat (nonce ++ [0, 0, 0, 1])
  let c := ctrCrypt key j0 plaintext
  nonce ++ c ++ gcmTag key j0 c

/-- The error taxonomy of the crypto layer: a non-32-byte key
(`aes.NewCipher`), input shorter than the nonce (`ciphertext too short`),
or failed authentication (`cipher: message authentication failed`). -/
inductive CryptoErr
  | keySize
  | tooShort
  | authFailed
deriving DecidableEq, Repr

/-- `gcm.Open(nil, nonce, rest, nil)`: split the trailing 16-byte tag,
recompute it over the ciphertext, and decrypt only on a match. -/
def gcmOpen (key nonce rest : List Nat) : Except CryptoErr (List Nat) :=
  if rest.length < 16 then Except.error CryptoErr.authFailed
  else
    let j0 := beBytesToNat (nonce ++ [0, 0, 0, 1])
    let c := rest.take (rest.length - 16)
    if gcmTag key j0 c = rest.drop (rest.length - 16) then
      Except.ok (ctrCrypt key j0 c)
    else Except.error CryptoErr.authFailed

/-- `Encrypt` (crypto.go lines 22-40): derive the AES-256 cipher from the
key (errors on a wrong-size key), draw a random 12-byte `nonce` (here a
parameter), and return `gcm.Seal(nonce, nonce, plaintext, nil)`. -/
def Encrypt (plaintext key nonce : List Nat) : Except CryptoErr (List Nat) :=
  if key.length = 32 then Except.ok (gcmSeal key nonce plaintext)
  else Except.error CryptoErr.keySize

/-- `Decrypt` (crypto.go lines 44-64): derive the cipher, reject input
shorter than the 12-byte nonce, split nonce and sealed remainder, and
return `gcm.Open`'s result. -/
def Decrypt (ciphertext key : List Nat) : Except CryptoErr (List Nat) :=
  if key.length = 32 then
    if ciphertext.length < 12 then Except.error CryptoErr.tooShort
    else gcmOpen key (ciphertext.take 12) (ciphertext.drop 12)
  else Except.error CryptoErr.keySize

/-! ## Well-formedness invariants and sample wire messages -/

/-- Room well-formedness: each peerID occupies at most one connection slot
(the key list has no duplicates). -/
abbrev roomWF (room : Room) : Prop := (room.map Prod.fst).Nodup

/-- Hub-table well-formedness: room keys are unique, and every room present
in the table is well-formed and non-empty. -/
abbrev hubWF (t : RoomTable) : Prop :=
  (t.map Prod.fst).Nodup ∧ ∀ p ∈ t, roomWF p.2 ∧ p.2 ≠ []

/-- Coordinator-table well-formedness: each remote peer occupies at most one
entry in each of the two tables. -/
abbrev tablesWF (a : AppTables) : Prop :=
  (a.peers.map Prod.fst).Nodup ∧ (a.dataChans.map Prod.fst).Nodup

/-- A well-formed signaling envelope targeted at peer `p2`. -/
def jsonTargeted : List Char :=
  ("\x7b\"type\":\"offer\",\"from\":\"p1\",\"to\":\"p2\"\x7d").data

/-- A well-formed signaling envelope targeted at the sender itself (`p1`). -/
def jsonToSelf : List Char :=
  ("\x7b\"type\":\"offer\",\"from\":\"p1\",\"to\":\"p1\"\x7d").data

/-- A well-formed untargeted signaling envelope (no `to` member). -/
def jsonUntargeted : List Char :=
  ("\x7b\"type\":\"join\",\"from\":\"p1\"\x7d").data

/-- Bytes on which `Unmarshal` fails. -/
def jsonMalformed : List Char := ("not json").data

/-! ## Association-list lemmas shared by the hub and coordinator proofs -/

theorem mapGet_mapSet_self (l : List (String × α)) (k : String) (v : α) :
    mapGet (mapSet l k v) k = some v := by
  induction l with
  | nil => simp [mapSet, mapGet]
  | cons p t ih =>
    obtain ⟨a, b⟩ := p
    by_cases h : a = k
    · simp [mapSet, mapGet, h]
    · simp [mapSet, mapGet, h, ih]

theorem mapGet_mapSet_ne (l : List (String × α)) (k k' : String) (v : α)
    (h : k' ≠ k) : mapGet (mapSet l k v) k' = mapGet l k' := by
  induction l with
  | nil => simp [mapSet, mapGet, Ne.symm h]
  | cons p t ih =>
    obtain ⟨a, b⟩ := p
    by_cases ha : a = k
    · simp [mapSet, mapGet, ha, Ne.symm h]
    · by_cases ha' : a = k' <;> simp [mapSet, mapGet, ha, ha', ih, h]

theorem mapSet_ne_nil (l : List (String × α)) (k : String) (v : α) :
    mapSet l k v ≠ [] := by
  cases l with
  | nil => simp [mapSet]
  | cons p t =>
    obtain ⟨a, b⟩ := p
    by_cases h : a = k <;> simp [mapSet, h]

theorem mem_keys_mapSet (l : List (String × α)) (k x : String) (v : α) :
    x ∈ (mapSet l k v).map Prod.fst ↔ x = k ∨ x ∈ l.map Prod.fst := by
  induction l with
  | nil => simp [mapSet]
  | cons p t ih =>
    obtain ⟨a, b⟩ := p
    by_cases h : a = k
    · subst h
      simp [mapSet]
    · simp [mapSet, h, ih]
      tauto

theorem nodup_keys_mapSet (l : List (String × α)) (k : String) (v : α)
    (h : (l.map Prod.fst).Nodup) : ((mapSet l k v).map Prod.fst).Nodup := by
  induction l with
  | nil => simp [mapSet]
  | cons p t ih =>
    obtain ⟨a, b⟩ := p
    simp only [List.map_cons, List.nodup_cons] at h
    by_cases ha : a = k
    · subst ha
      simpa [mapSet] using h
    · simp only [mapSet, ha, if_false, List.map_cons, List.nodup_cons]
      refine ⟨?_, ih h.2⟩
      rw [mem_keys_mapSet]
      rintro (rfl | hmem)
      · exact ha rfl
      · exact h.1 hmem

theorem mapDel_sublist (l : List (String × α)) (k : String) :
    List.Sublist (mapDel l k) l := by
  induction l with
  | nil => exact List.nil_sublist []
  | cons p t ih =>
    obtain ⟨a, b⟩ := p
    by_cases h : a = k
    · subst h
      simp only [mapDel, if_pos rfl]
      exact List.sublist_cons_self _ _
    · simp only [mapDel, if_neg h]
      exact List.Sublist.cons₂ _ ih

theorem nodup_keys_mapDel (l : List (String × α)) (k : String)
    (h : (l.map Prod.fst).Nodup) : ((mapDel l k).map Prod.fst).Nodup :=
  List.Nodup.sublist (List.Sublist.map Prod.fst (mapDel_sublist l k)) h

theorem mapGet_eq_none_of_not_mem (l : List (String × α)) (k : String)
    (h : k ∉ l.map Prod.fst) : mapGet l k = none := by
  induction l with
  | nil => simp [mapGet]
  | cons p t ih =>
    obtain ⟨a, b⟩ := p
    simp only [List.map_cons, List.mem_cons] at h
    push_neg at h
    simp [mapGet, Ne.symm h.1, ih h.2]

theorem mapGet_mapDel_self (l : List (String × α)) (k : String)
    (h : (l.map Prod.fst).Nodup) : mapGet (mapDel l k) k = none := by
  induction l with
  | nil => simp [mapDel, mapGet]
  | cons p t ih =>
    obtain ⟨a, b⟩ := p
    simp only [List.map_cons, List.nodup_cons] at h
    by_cases ha : a = k
    · subst ha
      simp only [mapDel, if_true]
      exact mapGet_eq_none_of_not_mem t a h.1
    · simp [mapDel, mapGet, ha, ih h.2]

theorem mapGet_mapDel_ne (l : List (String × α)) (k k' : String)
    (h : k' ≠ k) : mapGet (mapDel l k) k' = mapGet l k' := by
  induction l with
  | nil => simp [mapDel]
  | cons p t ih =>
    obtain ⟨a, b⟩ := p
    by_cases ha : a = k
    · simp [mapDel, mapGet, ha, Ne.symm h]
    · by_cases ha' : a = k' <;> simp [mapDel, mapGet, ha, ha', ih, h]

theorem mapDel_eq_of_mapGet_none (l : List (String × α)) (k : String)
    (h : mapGet l k = none) : mapDel l k = l := by
  induction l with
  | nil => simp [mapDel]
  | cons p t ih =>
    obtain ⟨a, b⟩ := p
    by_cases ha : a = k
    · simp [mapGet, ha] at h
    · simp only [mapGet, ha, if_false] at h
      simp [mapDel, ha, ih h]

theorem mem_mapSet (l : List (String × α)) (k : String) (v : α)
    (p : String × α) (h : p ∈ mapSet l k v) : p = (k, v) ∨ p ∈ l := by
  induction l with
  | nil =>
    simp only [mapSet] at h
    rcases List.mem_cons.mp h with h | h
    · exact Or.inl h
    · exact absurd h (List.not_mem_nil p)
  | cons q t ih =>
    obtain ⟨a, b⟩ := q
    simp only [mapSet] at h
    by_cases ha : a = k
    · rw [if_pos ha] at h
      rcases List.mem_cons.mp h with h | h
      · exact Or.inl h
      · exact Or.inr (List.mem_cons_of_mem _ h)
    · rw [if_neg ha] at h
      rcases List.mem_cons.mp h with h | h
      · refine Or.inr ?_
        rw [h]
        exact List.mem_cons_self _ _
      · rcases ih h with h' | h'
        · exact Or.inl h'
        · exact Or.inr (List.mem_cons_of_mem _ h')

theorem mapGet_some_mem (l : List (String × α)) (k : String) (v : α)
    (h : mapGet l k = some v) : (k, v) ∈ l := by
  induction l with
  | nil => exact Option.noConfusion h
  | cons q t ih =>
    obtain ⟨a, b⟩ := q
    simp only [mapGet] at h
    by_cases ha : a = k
    · rw [if_pos ha] at h
      injection h with hv
      rw [← ha, ← hv]
      exact List.mem_cons_self _ _
    · rw [if_neg ha] at h
      exact List.mem_cons_of_mem _ (ih h)

/-- Characterization of the fan-out loop: the successful writes are the
non-sender connections whose write succeeds, each receiving exactly the raw
bytes, and the closed connections are the non-sender connections whose
write fails; all in room order. -/
theorem fanLoop_spec (sender : Conn) (fails : Conn → Bool) (msg : List Char)
    (room : Room) :
    fanLoop sender fails msg room
      = ((room.filter (fun pc => pc.2 != sender && !(fails pc.2))).map
          (fun pc => (pc.2, msg)),
         (room.filter (fun pc => pc.2 != sender && fails pc.2)).map Prod.snd) := by
  induction room with
  | nil => simp [fanLoop]
  | cons p t ih =>
    obtain ⟨pid, c⟩ := p
    by_cases hc : c = sender
    · simp [fanLoop, hc, ih]
    · by_cases hf : fails c <;> simp [fanLoop, hc, hf, ih]

/-! ## Theorems for the ClipboardGuard claims -/

/-- C1: for every guard state and payload `x`, `ShouldIgnore x` returns
`true` and leaves the stored last-known content unchanged when `x` equals
the last-known content, and returns `false` and sets the last-known content
to `x` otherwise; consequently after `WriteSafely "A"` a change event
reporting `"A"` is suppressed, and a subsequent event reporting `"B"` is
accepted and makes `"B"` the last-known content.  (`"A"`, `"B"` are the
byte sequences `[65]`, `[66]`.) -/
theorem C1_echo_cancellation :
    (∀ (m : Manager) (x : Bytes), x = m.lastContent →
        m.ShouldIgnore x = (true, m)) ∧
    (∀ (m : Manager) (x : Bytes), x ≠ m.lastContent →
        m.ShouldIgnore x = (false, { lastContent := x })) ∧
    (∀ m : Manager,
        (m.WriteSafely [65]).ShouldIgnore [65] = (true, m.WriteSafely [65]) ∧
        (((m.WriteSafely [65]).ShouldIgnore [65]).2).ShouldIgnore [66]
          = (false, { lastContent := [66] })) := by
  refine ⟨?_, ?_, ?_⟩
  · intro m x h
    simp [Manager.ShouldIgnore, h]
  · intro m x h
    simp [Manager.ShouldIgnore, h]
  · intro m
    simp [Manager.ShouldIgnore, Manager.WriteSafely]

/-- Witness for C1 at a concrete state: last-known `[65]`, events `[65]`
then `[66]`. -/
theorem C1_echo_cancellation_witness :
    (Manager.mk [65]).ShouldIgnore [65] = (true, Manager.mk [65]) ∧
    (Manager.mk [65]).ShouldIgnore [66] = (false, Manager.mk [66]) :=
  ⟨C1_echo_cancellation.1 (Manager.mk [65]) [65] rfl,
   C1_echo_cancellation.2.1 (Manager.mk [65]) [66] (by decide)⟩

/-- C10: immediately after a call `ShouldIgnore x` that returned `false`
(so `x` was accepted as a genuine external change), a repeated call
`ShouldIgnore x` on the resulting state returns `true` and leaves the state
unchanged: consecutive identical change events are deduplicated even though
the guard never wrote `x` itself. -/
theorem C10_duplicate_events_suppressed (m : Manager) (x : Bytes)
    (h : (m.ShouldIgnore x).1 = false) :
    ((m.ShouldIgnore x).2).ShouldIgnore x = (true, (m.ShouldIgnore x).2) := by
  by_cases hx : x = m.lastContent
  · simp [Manager.ShouldIgnore, hx] at h
  · simp [Manager.ShouldIgnore, hx]

/-- Witness for C10: the state whose last-known content is `[65]` accepts
`[66]` and then suppresses the repeated `[66]`. -/
theorem C10_duplicate_events_suppressed_witness :
    (((Manager.mk [65]).ShouldIgnore [66]).2).ShouldIgnore [66]
      = (true, ((Manager.mk [65]).ShouldIgnore [66]).2) :=
  C10_duplicate_events_suppressed (Manager.mk [65]) [66] (by decide)

/-! ## Theorems for the RoomHub claims -/

/-- C4: if the raw message parses as a signaling envelope with non-empty
`toPeer`, `broadcast` delivers the message only to that peer's handle in the
room — to it when present and its write succeeds, to nobody when the peer is
absent, and never to a third party; otherwise (parse failure or empty
`toPeer`) it delivers to every handle in the room except the sender, so the
sender never receives its own untargeted message back. -/
theorem C4_relay_semantics :
    (∀ (room : Room) (sender target : Conn) (fails : Conn → Bool)
        (msg : List Char) (m : Message),
        Unmarshal msg = Except.ok m → m.toPeer ≠ ("") →
        mapGet room m.toPeer = some target → fails target = false →
        (broadcast room sender fails msg).delivered = [(target, msg)]) ∧
    (∀ (room : Room) (sender : Conn) (fails : Conn → Bool)
        (msg : List Char) (m : Message),
        Unmarshal msg = Except.ok m → m.toPeer ≠ ("") →
        mapGet room m.toPeer = none →
        (broadcast room sender fails msg).delivered = []) ∧
    (∀ (room : Room) (sender : Conn) (msg : List Char),
        (∀ m, Unmarshal msg = Except.ok m → m.toPeer = ("")) →
        (broadcast room sender (fun _ => false) msg).delivered
          = (room.filter (fun pc => pc.2 != sender)).map (fun pc => (pc.2, msg))) ∧
    (∀ (room : Room) (sender : Conn) (fails : Conn → Bool) (msg : List Char),
        (∀ m, Unmarshal msg = Except.ok m → m.toPeer = ("")) →
        ((broadcast room sender fails msg).delivered.all
          (fun d => d.1 != sender)) = true) := by
  refine ⟨?_, ?_, ?_, ?_⟩
  · intro room sender target fails msg m h1 h2 h3 h4
    simp [broadcast, h1, h2, h3, h4]
  · intro room sender fails msg m h1 h2 h3
    simp [broadcast, h1, h2, h3]
  · intro room sender msg hm
    cases hu : Unmarshal msg with
    | ok m =>
      have hempty := hm m hu
      simp [broadcast, hu, hempty, fanLoop_spec]
    | error e => simp [broadcast, hu, fanLoop_spec]
  · intro room sender fails msg hm
    have hd : (broadcast room sender fails msg).delivered
        = (room.filter (fun pc => pc.2 != sender && !(fails pc.2))).map
            (fun pc => (pc.2, msg)) := by
      cases hu : Unmarshal msg with
      | ok m =>
        have hempty := hm m hu
        simp [broadcast, hu, hempty, fanLoop_spec]
      | error e => simp [broadcast, hu, fanLoop_spec]
    rw [hd]
    simp only [List.all_eq_true, List.mem_map, List.mem_filter]
    rintro d ⟨pc, ⟨_, hcond⟩, rfl⟩
    simp only [Bool.and_eq_true] at hcond
    exact hcond.1

/-- Witness for C4 in the room `{p1 ↦ 1, p2 ↦ 2, p3 ↦ 3}` with sender `1`:
a message targeted at `p2` reaches exactly connection `2` even with `p3`
present; a message targeted at an absent peer reaches nobody; an untargeted
message reaches `2` and `3` and never the sender. -/
theorem C4_relay_semantics_witness :
    (broadcast [(("p1"), 1), (("p2"), 2), (("p3"), 3)] 1 (fun _ => false)
        jsonTargeted).delivered = [(2, jsonTargeted)] ∧
    (broadcast [(("p1"), 1), (("p3"), 3)] 1 (fun _ => false)
        jsonTargeted).delivered = [] ∧
    (broadcast [(("p1"), 1), (("p2"), 2), (("p3"), 3)] 1 (fun _ => false)
        jsonUntargeted).delivered
      = [(2, jsonUntargeted), (3, jsonUntargeted)] ∧
    ((broadcast [(("p1"), 1), (("p2"), 2), (("p3"), 3)] 1 (fun _ => false)
        jsonUntargeted).delivered.all (fun d => d.1 != 1)) = true := by
  have hju : ∀ m, Unmarshal jsonUntargeted = Except.ok m → m.toPeer = ("") := by
    intro m hm
    have hj : Unmarshal jsonUntargeted
        = Except.ok (Message.mk ("join") ("p1") ("") ("")) := by decide
    rw [hj] at hm
    injection hm with h
    rw [← h]
  refine ⟨?_, ?_, ?_, ?_⟩
  · exact C4_relay_semantics.1 [(("p1"), 1), (("p2"), 2), (("p3"), 3)] 1 2
      (fun _ => false) jsonTargeted (Message.mk ("offer") ("p1") ("p2") (""))
      (by decide) (by decide) (by decide) rfl
  · exact C4_relay_semantics.2.1 [(("p1"), 1), (("p3"), 3)] 1
      (fun _ => false) jsonTargeted (Message.mk ("offer") ("p1") ("p2") (""))
      (by decide) (by decide) (by decide)
  · rw [C4_relay_semantics.2.2.1 [(("p1"), 1), (("p2"), 2), (("p3"), 3)] 1
      jsonUntargeted hju]
    decide
  · exact C4_relay_semantics.2.2.2 [(("p1"), 1), (("p2"), 2), (("p3"), 3)] 1
      (fun _ => false) jsonUntargeted hju

/-- C5: on every byte string on which `Unmarshal` fails, `broadcast` is
still a total function (no crash — `Unmarshal` returns an error value) and
behaves exactly as an untargeted broadcast: the bytes are delivered
unchanged to every handle in the room except the sender (those whose write
succeeds; a failing write closes that recipient), and the room membership
is untouched. -/
theorem C5_malformed_input_fallback (room : Room) (sender : Conn)
    (fails : Conn → Bool) (msg : List Char) (e : Unit)
    (h : Unmarshal msg = Except.error e) :
    broadcast room sender fails msg =
      { delivered := (room.filter (fun pc => pc.2 != sender && !(fails pc.2))).map
          (fun pc => (pc.2, msg)),
        closed := (room.filter (fun pc => pc.2 != sender && fails pc.2)).map
          Prod.snd,
        room := room } := by
  simp [broadcast, h, fanLoop_spec]

/-- Witness for C5: `"not json"` does not parse, and broadcasting it in the
room `{p1 ↦ 1, p2 ↦ 2}` from sender `1` delivers exactly those bytes to
connection `2` only, leaving the room unchanged. -/
theorem C5_malformed_input_fallback_witness :
    broadcast [(("p1"), 1), (("p2"), 2)] 1 (fun _ => false) jsonMalformed
      = { delivered := [(2, jsonMalformed)], closed := [],
          room := [(("p1"), 1), (("p2"), 2)] } := by
  rw [C5_malformed_input_fallback [(("p1"), 1), (("p2"), 2)] 1 (fun _ => false)
    jsonMalformed () (by decide)]
  decide

/-- C9 (implicit): if a message parses successfully and its `toPeer` equals
the sender's own peerID while that peerID is registered in the room (mapped
to the sender's connection), the hub delivers the message back to the
sender: the sender-exclusion rule is applied only on the untargeted fan-out
path, not on the targeted path. -/
theorem C9_targeted_self_delivery (room : Room) (sender : Conn)
    (fails : Conn → Bool) (msg : List Char) (m : Message)
    (h1 : Unmarshal msg = Except.ok m) (h2 : m.toPeer ≠ (""))
    (h3 : mapGet room m.toPeer = some sender) (h4 : fails sender = false) :
    (broadcast room sender fails msg).delivered = [(sender, msg)] := by
  simp [broadcast, h1, h2, h3, h4]

/-- Witness for C9: `p1` (connection `1`) sends an envelope with `to = p1`;
the hub writes it back to connection `1`. -/
theorem C9_targeted_self_delivery_witness :
    (broadcast [(("p1"), 1), (("p2"), 2)] 1 (fun _ => false)
        jsonToSelf).delivered = [(1, jsonToSelf)] :=
  C9_targeted_self_delivery [(("p1"), 1), (("p2"), 2)] 1 (fun _ => false)
    jsonToSelf (Message.mk ("offer") ("p1") ("p1") (""))
    (by decide) (by decide) (by decide) rfl

/-- Counterexample to C7 as stated: in the room `{p1 ↦ 1, p2 ↦ 2}` with
sender `1`, fanning out bytes whose write to connection `2` fails closes
connection `2` — but `p2` is still registered in the room afterwards, so
the fan-out path does not deregister the failed recipient. -/
theorem C7_counterexample :
    (broadcast [(("p1"), 1), (("p2"), 2)] 1 (fun c => c == 2)
        jsonMalformed).closed = [2] ∧
    mapGet (broadcast [(("p1"), 1), (("p2"), 2)] 1 (fun c => c == 2)
        jsonMalformed).room ("p2") = some 2 := by
  decide

/-- C7 (amended): a failed write is treated as a disconnection without retry
— on the targeted path the hub closes the target, delivers nothing, and
deregisters the target from the room (so its peerID no longer resolves);
on the fan-out path it closes every failed recipient and still delivers to
all remaining recipients (no abort), but leaves the room membership
untouched inside `broadcast` (deregistration happens only when that
recipient's own receive loop ends). -/
theorem C7_failed_send_is_disconnection :
    (∀ (room : Room) (sender target : Conn) (fails : Conn → Bool)
        (msg : List Char) (m : Message),
        Unmarshal msg = Except.ok m → m.toPeer ≠ ("") →
        mapGet room m.toPeer = some target → fails target = true →
        (broadcast room sender fails msg).delivered = [] ∧
        (broadcast room sender fails msg).closed = [target] ∧
        (broadcast room sender fails msg).room = mapDel room m.toPeer) ∧
    (∀ (room : Room) (pid : String), roomWF room →
        mapGet (mapDel room pid) pid = none) ∧
    (∀ (room : Room) (sender : Conn) (fails : Conn → Bool) (msg : List Char),
        (∀ m, Unmarshal msg = Except.ok m → m.toPeer = ("")) →
        (broadcast room sender fails msg).closed
            = (room.filter (fun pc => pc.2 != sender && fails pc.2)).map
                Prod.snd ∧
        (broadcast room sender fails msg).delivered
            = (room.filter (fun pc => pc.2 != sender && !(fails pc.2))).map
                (fun pc => (pc.2, msg)) ∧
        (broadcast room sender fails msg).room = room) := by
  refine ⟨?_, ?_, ?_⟩
  · intro room sender target fails msg m h1 h2 h3 h4
    refine ⟨?_, ?_, ?_⟩ <;> simp [broadcast, h1, h2, h3, h4]
  · intro room pid h
    exact mapGet_mapDel_self room pid h
  · intro room sender fails msg hm
    cases hu : Unmarshal msg with
    | ok m =>
      have hempty := hm m hu
      refine ⟨?_, ?_, ?_⟩ <;> simp [broadcast, hu, hempty, fanLoop_spec]
    | error e =>
      refine ⟨?_, ?_, ?_⟩ <;> simp [broadcast, hu, fanLoop_spec]

/-- Witness for the amended C7: a targeted send to `p2` whose write fails
closes connection `2`, delivers nothing and removes `p2` from the room
(whose lookup then misses); a fan-out among `{p1, p2, p3}` where the write
to `2` fails closes `2`, still delivers to `3`, and leaves the membership
untouched. -/
theorem C7_failed_send_is_disconnection_witness :
    ((broadcast [(("p1"), 1), (("p2"), 2)] 1 (fun c => c == 2)
        jsonTargeted).delivered = [] ∧
     (broadcast [(("p1"), 1), (("p2"), 2)] 1 (fun c => c == 2)
        jsonTargeted).closed = [2] ∧
     (broadcast [(("p1"), 1), (("p2"), 2)] 1 (fun c => c == 2)
        jsonTargeted).room = mapDel [(("p1"), 1), (("p2"), 2)] ("p2")) ∧
    mapGet (mapDel [(("p1"), 1), (("p2"), 2)] ("p2")) ("p2") = none ∧
    ((broadcast [(("p1"), 1), (("p2"), 2), (("p3"), 3)] 1 (fun c => c == 2)
        jsonMalformed).closed = [2] ∧
     (broadcast [(("p1"), 1), (("p2"), 2), (("p3"), 3)] 1 (fun c => c == 2)
        jsonMalformed).delivered = [(3, jsonMalformed)] ∧
     (broadcast [(("p1"), 1), (("p2"), 2), (("p3"), 3)] 1 (fun c => c == 2)
        jsonMalformed).room = [(("p1"), 1), (("p2"), 2), (("p3"), 3)]) := by
  refine ⟨?_, ?_, ?_⟩
  · exact C7_failed_send_is_disconnection.1 [(("p1"), 1), (("p2"), 2)] 1 2
      (fun c => c == 2) jsonTargeted (Message.mk ("offer") ("p1") ("p2") (""))
      (by decide) (by decide) (by decide) rfl
  · exact C7_failed_send_is_disconnection.2.1 [(("p1"), 1), (("p2"), 2)]
      ("p2") (by decide)
  · have h := C7_failed_send_is_disconnection.2.2
      [(("p1"), 1), (("p2"), 2), (("p3"), 3)] 1 (fun c => c == 2) jsonMalformed
      (by
        intro m hm
        rw [show Unmarshal jsonMalformed = Except.error () from by decide] at hm
        exact Except.noConfusion hm)
    obtain ⟨h1, h2, h3⟩ := h
    refine ⟨?_, ?_, ?_⟩
    · rw [h1]
      decide
    · rw [h2]
      decide
    · exact h3

/-- C6: a room entry is created lazily on the first registration in it; the
hub invariant — every room present in the table is non-empty and has
unique peer keys — is preserved by any complete register or deregister
operation; a registration overwrites any earlier handle for the same
peerID, which therefore occupies exactly one connection slot in its room;
deregistration removes the peerID from the room, and when the last peerID
is removed the room entry itself is deleted. -/
theorem C6_room_lifecycle :
    (∀ (t : RoomTable) (roomID peerID : String) (ws : Conn),
        mapGet t roomID = none →
        mapGet (register t roomID peerID ws) roomID = some [(peerID, ws)]) ∧
    (∀ (t : RoomTable) (roomID peerID : String) (ws : Conn),
        hubWF t → hubWF (register t roomID peerID ws)) ∧
    (∀ (t : RoomTable) (roomID peerID : String),
        hubWF t → hubWF (deregister t roomID peerID)) ∧
    (∀ (t : RoomTable) (roomID peerID : String) (ws : Conn),
        mapGet ((mapGet (register t roomID peerID ws) roomID).getD [])
          peerID = some ws) ∧
    (∀ (t : RoomTable) (roomID peerID : String) (ws : Conn) (room' : Room),
        hubWF t → mapGet (register t roomID peerID ws) roomID = some room' →
        (room'.map Prod.fst).count peerID = 1) ∧
    (∀ (t : RoomTable) (roomID peerID : String),
        hubWF t →
        mapGet ((mapGet (deregister t roomID peerID) roomID).getD [])
          peerID = none) ∧
    (∀ (t : RoomTable) (roomID peerID : String) (ws : Conn),
        hubWF t → mapGet t roomID = some [(peerID, ws)] →
        mapGet (deregister t roomID peerID) roomID = none) := by
  refine ⟨?_, ?_, ?_, ?_, ?_, ?_, ?_⟩
  · intro t roomID pid ws h
    simp [register, h, mapGet_mapSet_self, mapSet]
  · intro t roomID pid ws hWF
    obtain ⟨hnd, hmem⟩ := hWF
    refine ⟨nodup_keys_mapSet t roomID _ hnd, ?_⟩
    intro p hp
    rcases mem_mapSet t roomID _ p hp with h | h
    · subst h
      refine ⟨?_, mapSet_ne_nil _ _ _⟩
      apply nodup_keys_mapSet
      cases hr : mapGet t roomID with
      | none => simp
      | some r0 =>
        have hr0 : (roomID, r0) ∈ t := mapGet_some_mem t roomID r0 hr
        simpa [hr] using (hmem _ hr0).1
    · exact hmem p h
  · intro t roomID pid hWF
    obtain ⟨hnd, hmem⟩ := hWF
    cases hr : mapGet t roomID with
    | none =>
      rw [show deregister t roomID pid = t from by simp [deregister, hr]]
      exact ⟨hnd, hmem⟩
    | some room =>
      cases hp : mapGet room pid with
      | none =>
        rw [show deregister t roomID pid = t from by simp [deregister, hr, hp]]
        exact ⟨hnd, hmem⟩
      | some c =>
        have hroomWF : roomWF room :=
          (hmem _ (mapGet_some_mem t roomID room hr)).1
        by_cases h2 : mapDel room pid = []
        · rw [show deregister t roomID pid = mapDel t roomID from by
            simp [deregister, hr, hp, h2]]
          refine ⟨nodup_keys_mapDel t roomID hnd, ?_⟩
          intro p hp2
          exact hmem p ((mapDel_sublist t roomID).subset hp2)
        · rw [show deregister t roomID pid = mapSet t roomID (mapDel room pid)
            from by simp [deregister, hr, hp, h2]]
          refine ⟨nodup_keys_mapSet t roomID _ hnd, ?_⟩
          intro p hp2
          rcases mem_mapSet t roomID _ p hp2 with h | h
          · subst h
            exact ⟨nodup_keys_mapDel room pid hroomWF, h2⟩
          · exact hmem p h
  · intro t roomID pid ws
    simp [register, mapGet_mapSet_self]
  · intro t roomID pid ws room' hWF hsome
    simp only [register] at hsome
    rw [mapGet_mapSet_self] at hsome
    injection hsome with hX
    subst hX
    apply List.count_eq_one_of_mem
    · apply nodup_keys_mapSet
      cases hr : mapGet t roomID with
      | none => simp
      | some r0 =>
        have hr0 : (roomID, r0) ∈ t := mapGet_some_mem t roomID r0 hr
        simpa [hr] using (hWF.2 _ hr0).1
    · exact (mem_keys_mapSet _ pid pid ws).mpr (Or.inl rfl)
  · intro t roomID pid hWF
    cases hr : mapGet t roomID with
    | none => simp [deregister, hr, mapGet]
    | some room =>
      cases hp : mapGet room pid with
      | none => simp [deregister, hr, hp]
      | some c =>
        have hroomWF : roomWF room :=
          (hWF.2 _ (mapGet_some_mem t roomID room hr)).1
        by_cases h2 : mapDel room pid = []
        · simp [deregister, hr, hp, h2, mapGet_mapDel_self t roomID hWF.1,
            mapGet]
        · simp [deregister, hr, hp, h2, mapGet_mapSet_self,
            mapGet_mapDel_self room pid hroomWF]
  · intro t roomID pid ws hWF hsome
    simp [deregister, hsome, mapGet, mapDel,
      mapGet_mapDel_self t roomID hWF.1]

/-- Witness for C6 on concrete tables: registering `p1` in an absent room
`r` creates `{r ↦ {p1 ↦ 1}}`; register and deregister preserve the hub
invariant; re-registering `p1` overwrites its handle with `9` and `p1`
occupies exactly one slot; deregistering `p1` removes it, and removing the
last member deletes room `r` itself. -/
theorem C6_room_lifecycle_witness :
    mapGet (register [] ("r") ("p1") 1) ("r") = some [(("p1"), 1)] ∧
    hubWF (register [] ("r") ("p1") 1) ∧
    hubWF (deregister [(("r"), [(("p1"), 1), (("p2"), 2)])] ("r") ("p1")) ∧
    mapGet ((mapGet (register [(("r"), [(("p1"), 1)])] ("r") ("p1") 9)
      ("r")).getD []) ("p1") = some 9 ∧
    (([(("p1"), 9)] : Room).map Prod.fst).count ("p1") = 1 ∧
    mapGet ((mapGet (deregister [(("r"), [(("p1"), 1)])] ("r") ("p1"))
      ("r")).getD []) ("p1") = none ∧
    mapGet (deregister [(("r"), [(("p1"), 1)])] ("r") ("p1")) ("r") = none := by
  refine ⟨?_, ?_, ?_, ?_, ?_, ?_, ?_⟩
  · exact C6_room_lifecycle.1 [] ("r") ("p1") 1 rfl
  · exact C6_room_lifecycle.2.1 [] ("r") ("p1") 1 (by decide)
  · exact C6_room_lifecycle.2.2.1 [(("r"), [(("p1"), 1), (("p2"), 2)])]
      ("r") ("p1") (by decide)
  · exact C6_room_lifecycle.2.2.2.1 [(("r"), [(("p1"), 1)])] ("r") ("p1") 9
  · exact C6_room_lifecycle.2.2.2.2.1 [(("r"), [(("p1"), 1)])] ("r") ("p1") 9
      [(("p1"), 9)] (by decide) (by decide)
  · exact C6_room_lifecycle.2.2.2.2.2.1 [(("r"), [(("p1"), 1)])] ("r") ("p1")
      (by decide)
  · exact C6_room_lifecycle.2.2.2.2.2.2 [(("r"), [(("p1"), 1)])] ("r") ("p1")
      1 (by decide) rfl

/-- C8: closing the session of remote peer `p` removes exactly `p`'s
data-channel and peer-connection entries from the coordinator's tables;
entries of every other peer are unaffected; closing when `p` is absent is a
no-op leaving both tables unchanged, and hence closing a second time is
also a no-op. -/
theorem C8_close_session_idempotent :
    (∀ (a : AppTables) (p : String), tablesWF a →
        mapGet (closePeerConnection a p).dataChans p = none ∧
        mapGet (closePeerConnection a p).peers p = none) ∧
    (∀ (a : AppTables) (p q : String), q ≠ p →
        mapGet (closePeerConnection a p).dataChans q = mapGet a.dataChans q ∧
        mapGet (closePeerConnection a p).peers q = mapGet a.peers q) ∧
    (∀ (a : AppTables) (p : String),
        mapGet a.dataChans p = none → mapGet a.peers p = none →
        closePeerConnection a p = a) ∧
    (∀ (a : AppTables) (p : String), tablesWF a →
        closePeerConnection (closePeerConnection a p) p
          = closePeerConnection a p) := by
  refine ⟨?_, ?_, ?_, ?_⟩
  · intro a p hWF
    obtain ⟨hp, hd⟩ := hWF
    cases hdc : mapGet a.dataChans p <;> cases hpc : mapGet a.peers p <;>
      simp [closePeerConnection, hdc, hpc, mapGet_mapDel_self _ p hp,
        mapGet_mapDel_self _ p hd]
  · intro a p q hq
    cases hdc : mapGet a.dataChans p <;> cases hpc : mapGet a.peers p <;>
      simp [closePeerConnection, hdc, hpc, mapGet_mapDel_ne _ p q hq]
  · intro a p h1 h2
    simp [closePeerConnection, h1, h2]
  · intro a p hWF
    obtain ⟨hp, hd⟩ := hWF
    cases hdc : mapGet a.dataChans p <;> cases hpc : mapGet a.peers p <;>
      simp [closePeerConnection, hdc, hpc, mapGet_mapDel_self _ p hp,
        mapGet_mapDel_self _ p hd]

/-- Witness for C8 on the tables `peers = {p1 ↦ 1, p2 ↦ 2}`,
`dataChans = {p1 ↦ 11, p2 ↦ 12}`: closing `p2` removes exactly its two
entries and leaves `p1`'s intact; closing the absent `p3` is a no-op; a
second close of `p2` changes nothing. -/
theorem C8_close_session_idempotent_witness :
    (mapGet (closePeerConnection
        (AppTables.mk [(("p1"), 1), (("p2"), 2)]
          [(("p1"), 11), (("p2"), 12)]) ("p2")).dataChans ("p2") = none ∧
     mapGet (closePeerConnection
        (AppTables.mk [(("p1"), 1), (("p2"), 2)]
          [(("p1"), 11), (("p2"), 12)]) ("p2")).peers ("p2") = none) ∧
    (mapGet (closePeerConnection
        (AppTables.mk [(("p1"), 1), (("p2"), 2)]
          [(("p1"), 11), (("p2"), 12)]) ("p2")).dataChans ("p1")
        = mapGet [(("p1"), 11), (("p2"), 12)] ("p1") ∧
     mapGet (closePeerConnection
        (AppTables.mk [(("p1"), 1), (("p2"), 2)]
          [(("p1"), 11), (("p2"), 12)]) ("p2")).peers ("p1")
        = mapGet [(("p1"), 1), (("p2"), 2)] ("p1")) ∧
    closePeerConnection
        (AppTables.mk [(("p1"), 1), (("p2"), 2)]
          [(("p1"), 11), (("p2"), 12)]) ("p3")
      = AppTables.mk [(("p1"), 1), (("p2"), 2)] [(("p1"), 11), (("p2"), 12)] ∧
    closePeerConnection (closePeerConnection
        (AppTables.mk [(("p1"), 1), (("p2"), 2)]
          [(("p1"), 11), (("p2"), 12)]) ("p2")) ("p2")
      = closePeerConnection
          (AppTables.mk [(("p1"), 1), (("p2"), 2)]
            [(("p1"), 11), (("p2"), 12)]) ("p2") := by
  refine ⟨?_, ?_, ?_, ?_⟩
  · exact C8_close_session_idempotent.1
      (AppTables.mk [(("p1"), 1), (("p2"), 2)] [(("p1"), 11), (("p2"), 12)])
      ("p2") (by decide)
  · exact C8_close_session_idempotent.2.1
      (AppTables.mk [(("p1"), 1), (("p2"), 2)] [(("p1"), 11), (("p2"), 12)])
      ("p2") ("p1") (by decide)
  · exact C8_close_session_idempotent.2.2.1
      (AppTables.mk [(("p1"), 1), (("p2"), 2)] [(("p1"), 11), (("p2"), 12)])
      ("p3") rfl rfl
  · exact C8_close_session_idempotent.2.2.2
      (AppTables.mk [(("p1"), 1), (("p2"), 2)] [(("p1"), 11), (("p2"), 12)])
      ("p2") (by decide)

/-! ## Length and inversion lemmas for the crypto layer, and the CryptoBox
claims -/

theorem natToBeBytes_length (n x : Nat) : (natToBeBytes n x).length = n := by
  simp [natToBeBytes]

theorem addRoundKey_length (rk s : List Nat) : (addRoundKey rk s).length = 16 := by
  simp [addRoundKey]

theorem encryptBlock_length (key b : List Nat) :
    (encryptBlock key b).length = 16 := by
  simp [encryptBlock, aesFinalRound, addRoundKey]

theorem ksBlocks_length (key : List Nat) (j0 b : Nat) :
    (ksBlocks key j0 b).length = 16 * b := by
  induction b with
  | zero => simp [ksBlocks]
  | succ n ih =>
    simp [ksBlocks, ih, encryptBlock_length]
    omega

theorem ctrCrypt_length (key : List Nat) (j0 : Nat) (msg : List Nat) :
    (ctrCrypt key j0 msg).length = msg.length := by
  simp [ctrCrypt, listXor, List.length_zipWith, List.length_take, ksBlocks_length]
  omega

theorem listXor_cancel (a b : List Nat) (h : a.length ≤ b.length) :
    listXor (listXor a b) b = a := by
  induction a generalizing b with
  | nil => simp [listXor]
  | cons x xs ih =>
    cases b with
    | nil => simp at h
    | cons y ys =>
      simp only [listXor, List.zipWith_cons_cons]
      rw [Nat.xor_cancel_right]
      have hle : xs.length ≤ ys.length := by
        simpa using Nat.le_of_succ_le_succ h
      have := ih ys hle
      simp only [listXor] at this
      rw [this]

theorem ctrCrypt_ctrCrypt (key : List Nat) (j0 : Nat) (msg : List Nat) :
    ctrCrypt key j0 (ctrCrypt key j0 msg) = msg := by
  conv_lhs => rw [ctrCrypt]
  rw [ctrCrypt_length]
  apply listXor_cancel
  simp [List.length_take, ksBlocks_length, ctrCrypt_length]
  omega

set_option maxRecDepth 4000 in
/-- C2: for every plaintext `p`, every 32-byte key, and any 12-byte nonce
value `Encrypt` draws, `Decrypt (Encrypt p key nonce) key` succeeds and
returns `p`. -/
theorem C2_encrypt_decrypt_roundtrip (p key nonce : List Nat)
    (hk : key.length = 32) (hn : nonce.length = 12) :
    (Encrypt p key nonce).bind (fun s => Decrypt s key) = Except.ok p := by
  have hclen : (ctrCrypt key (beBytesToNat (nonce ++ [0, 0, 0, 1])) p).length
      = p.length := ctrCrypt_length _ _ _
  have htglen : (gcmTag key (beBytesToNat (nonce ++ [0, 0, 0, 1]))
      (ctrCrypt key (beBytesToNat (nonce ++ [0, 0, 0, 1])) p)).length = 16 :=
    natToBeBytes_length _ _
  simp only [Encrypt, if_pos hk]
  show Decrypt (gcmSeal key nonce p) key = Except.ok p
  rw [show gcmSeal key nonce p
      = nonce ++ (ctrCrypt key (beBytesToNat (nonce ++ [0, 0, 0, 1])) p
          ++ gcmTag key (beBytesToNat (nonce ++ [0, 0, 0, 1]))
              (ctrCrypt key (beBytesToNat (nonce ++ [0, 0, 0, 1])) p))
    from by rw [gcmSeal, List.append_assoc]]
  simp only [Decrypt, if_pos hk]
  rw [if_neg (by simp [hn, htglen])]
  rw [List.take_left' hn, List.drop_left' hn]
  simp only [gcmOpen]
  rw [if_neg (by simp [htglen])]
  rw [show (ctrCrypt key (beBytesToNat (nonce ++ [0, 0, 0, 1])) p
        ++ gcmTag key (beBytesToNat (nonce ++ [0, 0, 0, 1]))
            (ctrCrypt key (beBytesToNat (nonce ++ [0, 0, 0, 1])) p)).length - 16
      = (ctrCrypt key (beBytesToNat (nonce ++ [0, 0, 0, 1])) p).length
    from by simp [htglen]]
  rw [List.take_left, List.drop_left]
  rw [if_pos rfl]
  rw [ctrCrypt_ctrCrypt]

/-- Witness for C2: the 3-byte plaintext `[1, 2, 3]` under the all-zero
32-byte key and all-zero nonce round-trips. -/
theorem C2_encrypt_decrypt_roundtrip_witness :
    (Encrypt [1, 2, 3] (List.replicate 32 0) (List.replicate 12 0)).bind
      (fun s => Decrypt s (List.replicate 32 0)) = Except.ok [1, 2, 3] :=
  C2_encrypt_decrypt_roundtrip [1, 2, 3] (List.replicate 32 0)
    (List.replicate 12 0) (by decide) (by decide)

end ClipSync
